import Mathlib

/-!
Verification of the b9schema reflector core: the type-derivation engine
(`Reflector.reflectTypeImpl` and helpers) and the dialect-rendering framework
(`RenderSchema` / `RenderType`, Simple and JSON renderers).

The Go engine walks a `reflect.Value`; here Go values are embedded as the
inductive `GoValue`, with `GoType` describing element types needed for
zero-value synthesis (nil pointers, empty lists).  Named (defined) types may
be mutually recursive in Go, so named types are represented by `GoType.tDef`
references into an environment `Env` mapping a type name to its (structural)
underlying type.  The derivation engine is embedded fuel-indexed
(`reflect` returns `none` when the fuel bound on recursion depth is
exhausted); termination with sufficient fuel is itself one of the verified
properties.
-/

namespace B9

/-! ## Error constants (b9schema error taxonomy) -/

@[simp] def InvalidKindErr : String := "kind not supported"

@[simp] def RootKindErr : String := "root type must be a struct"

@[simp] def CyclicalReferenceErr : String := "cyclical reference"

@[simp] def NilInterfaceErr : String := "interface element is nil"

@[simp] def EmptyStructErr : String := "empty struct not supported"

@[simp] def EmptyMapErr : String := "empty map not supported"

@[simp] def NoExportedFieldsErr : String := "struct has no exported fields"

@[simp] def MapKeyTypeErr : String := "map key type must be string"

@[simp] def SliceMultiTypeErr : String := "slice contains multiple kinds"

@[simp] def DuplicateMapKeyErr : String := "duplicate map key"

/-! ## threeflag -/

inductive ThreeFlag where
  | flagUndefined
  | flagTrue
  | flagFalse
  deriving DecidableEq, Repr

/-! ## Type categories (enum/typecategory) -/

inductive TCat where
  | catInvalid
  | catBasic
  | catCompound
  | catKnown
  | catReference
  deriving DecidableEq, Repr

@[simp] def TCat.slug : TCat → String
  | .catInvalid => "invalid"
  | .catBasic => "basic"
  | .catCompound => "compound"
  | .catKnown => "known"
  | .catReference => "reference"

/-! ## Generic types (enum/generictype) -/

inductive GType where
  | gBoolean
  | gInteger
  | gFloat
  | gString
  | gDateTime
  | gList
  | gStruct
  | gInterface
  | gPointer
  | gInvalid
  deriving DecidableEq, Repr

@[simp] def GType.slug : GType → String
  | .gBoolean => "boolean"
  | .gInteger => "integer"
  | .gFloat => "float"
  | .gString => "string"
  | .gDateTime => "datetime"
  | .gList => "list"
  | .gStruct => "struct"
  | .gInterface => "interface"
  | .gPointer => "pointer"
  | .gInvalid => "invalid"

@[simp] def GType.cat : GType → TCat
  | .gBoolean => .catBasic
  | .gInteger => .catBasic
  | .gFloat => .catBasic
  | .gString => .catBasic
  | .gDateTime => .catKnown
  | .gList => .catCompound
  | .gStruct => .catCompound
  | .gInterface => .catReference
  | .gPointer => .catReference
  | .gInvalid => .catInvalid

/-- `PathDefaultOfType`: default path token for a generic type slug; unknown
slugs map to the Invalid default (slug "invalid"). -/
@[simp] def pathDefaultOfType (s : String) : String :=
  if s = "list" then "[]"
  else if s = "struct" then "\x7b\x7d"
  else if s = "interface" then "\x7b?\x7d"
  else if s = "pointer" then "*"
  else if s = "root" then "$"
  else if s = "boolean" ∨ s = "integer" ∨ s = "float" ∨ s = "string" ∨
          s = "datetime" ∨ s = "invalid" then s
  else "invalid"

/-! ## Go structural kinds (reflect.Kind) -/

inductive GKind where
  | kBool
  | kInt
  | kFloat
  | kString
  | kStruct
  | kMap
  | kSlice
  | kArray
  | kPtr
  | kIface
  | kChan
  | kFunc
  | kComplex
  | kUnsafe
  | kInvalid
  deriving DecidableEq, Repr

/-- `reflect.Kind.String()` for the kinds in the model. -/
@[simp] def GKind.str : GKind → String
  | .kBool => "bool"
  | .kInt => "int"
  | .kFloat => "float64"
  | .kString => "string"
  | .kStruct => "struct"
  | .kMap => "map"
  | .kSlice => "slice"
  | .kArray => "array"
  | .kPtr => "ptr"
  | .kIface => "interface"
  | .kChan => "chan"
  | .kFunc => "func"
  | .kComplex => "complex128"
  | .kUnsafe => "unsafe.Pointer"
  | .kInvalid => "invalid"

/-! ## Go types and values

`GoType` describes a Go type as needed for zero-value synthesis.  A named
(defined) type is a `tDef` reference resolved through the environment; the
environment maps each name to the structural underlying type of that named
type.  `GoValue` is a runtime value: basic values carry no payload (the
engine never reads them), composites carry their components, pointers and
interfaces carry their target (or `none` when nil).  `vNil` is the untyped
nil (`reflect.ValueOf(nil)`, the zero `reflect.Value`). -/

inductive GoType where
  | tBool
  | tInt
  | tFloat
  | tString
  | tTime
  | tChan
  | tFunc
  | tComplex
  | tUnsafe
  | tSlice (nm : String) (elem : GoType)
  | tArray (nm : String) (len : Nat) (elem : GoType)
  | tMap (nm : String) (keyIsString : Bool) (keyStr : String)
  | tStruct (nm : String) (fields : List (String × Bool × GoType))
  | tPtr (elem : GoType)
  | tIface
  | tDef (d : String)

inductive GoValue where
  | vBool
  | vInt
  | vFloat
  | vString
  | vTime
  | vChan
  | vFunc
  | vComplex
  | vUnsafe
  | vNil
  | vSlice (nm : String) (elem : GoType) (isNil : Bool) (xs : List GoValue)
  | vArray (nm : String) (elem : GoType) (xs : List GoValue)
  | vMap (nm : String) (keyIsString : Bool) (keyStr : String)
         (entries : List (String × GoValue))
  | vStruct (nm : String) (fields : List (String × Bool × GoValue))
  | vPtr (elem : GoType) (target : Option GoValue)
  | vIface (inner : Option GoValue)

/-- Environment of named type definitions: name of the defined type mapped to
its structural underlying type. -/
def Env := List (String × GoType)

@[simp] def lookupEnv (env : Env) (d : String) : Option GoType :=
  match env with
  | [] => none
  | (nm, t) :: rest => if nm = d then some t else lookupEnv rest d

/-- `v.Kind()` of a value. -/
@[simp] def GoValue.kind : GoValue → GKind
  | .vBool => .kBool
  | .vInt => .kInt
  | .vFloat => .kFloat
  | .vString => .kString
  | .vTime => .kStruct
  | .vChan => .kChan
  | .vFunc => .kFunc
  | .vComplex => .kComplex
  | .vUnsafe => .kUnsafe
  | .vNil => .kInvalid
  | .vSlice .. => .kSlice
  | .vArray .. => .kArray
  | .vMap .. => .kMap
  | .vStruct .. => .kStruct
  | .vPtr .. => .kPtr
  | .vIface .. => .kIface

/-- `v.Kind().String()`. -/
@[simp] def kindString (v : GoValue) : String := v.kind.str

/-- `v.Type().Name()`: the declared type name.  Predeclared basic types have
their kind name; `time.Time` has name `Time`; anonymous composite, pointer
and interface types have an empty name; named composites carry their name. -/
@[simp] def typeName : GoValue → String
  | .vBool => "bool"
  | .vInt => "int"
  | .vFloat => "float64"
  | .vString => "string"
  | .vTime => "Time"
  | .vChan => ""
  | .vFunc => ""
  | .vComplex => ""
  | .vUnsafe => ""
  | .vNil => ""
  | .vSlice nm .. => nm
  | .vArray nm .. => nm
  | .vMap nm .. => nm
  | .vStruct nm .. => nm
  | .vPtr .. => ""
  | .vIface .. => ""

/-- `generictype.GenericTypeOf`: mapping from the structural kind to the
generic type, with the single special (`Known`) type `time.Time`. -/
@[simp] def genericTypeOf (v : GoValue) : GType :=
  match v with
  | .vTime => .gDateTime
  | _ =>
    match v.kind with
    | .kBool => .gBoolean
    | .kInt => .gInteger
    | .kFloat => .gFloat
    | .kString => .gString
    | .kSlice => .gList
    | .kArray => .gList
    | .kMap => .gStruct
    | .kStruct => .gStruct
    | .kPtr => .gPointer
    | .kIface => .gInterface
    | .kChan => .gInvalid
    | .kFunc => .gInvalid
    | .kComplex => .gInvalid
    | .kUnsafe => .gInvalid
    | .kInvalid => .gInvalid

/-- Attach a defined-type name to a synthesized zero value (`reflect.New` of a
defined type yields a value whose type name is the defined name). -/
@[simp] def setTypeName (d : String) : GoValue → GoValue
  | .vSlice _ e isNil xs => .vSlice d e isNil xs
  | .vArray _ e xs => .vArray d e xs
  | .vMap _ k ks es => .vMap d k ks es
  | .vStruct _ fs => .vStruct d fs
  | v => v

/-! ## Zero-value synthesis (`reflect.New(t).Elem()`), fuel-indexed.

The fuel bounds the depth of named-type unfolding; each recursion step from
a type to a component type consumes one unit. -/

def zeroFieldsP (zf : GoType → Option GoValue) :
    List (String × Bool × GoType) → Option (List (String × Bool × GoValue))
  | [] => some []
  | (fn, ex, ft) :: rest =>
    match zf ft with
    | none => none
    | some z =>
      match zeroFieldsP zf rest with
      | none => none
      | some zs => some ((fn, ex, z) :: zs)

def zeroVal (env : Env) : Nat → GoType → Option GoValue
  | 0, _ => none
  | n + 1, t =>
    match t with
    | .tBool => some .vBool
    | .tInt => some .vInt
    | .tFloat => some .vFloat
    | .tString => some .vString
    | .tTime => some .vTime
    | .tChan => some .vChan
    | .tFunc => some .vFunc
    | .tComplex => some .vComplex
    | .tUnsafe => some .vUnsafe
    | .tSlice nm e => some (.vSlice nm e true [])
    | .tArray nm len e =>
      match zeroVal env n e with
      | none => none
      | some z => some (.vArray nm e (List.replicate len z))
    | .tMap nm k ks => some (.vMap nm k ks [])
    | .tStruct nm fs =>
      match zeroFieldsP (zeroVal env n) fs with
      | none => none
      | some zs => some (.vStruct nm zs)
    | .tPtr e => some (.vPtr e none)
    | .tIface => some (.vIface none)
    | .tDef d =>
      match lookupEnv env d with
      | none => none
      | some body =>
        match zeroVal env n body with
        | none => none
        | some z => some (setTypeName d z)

/-! ## Schema tree model (`types.TypeElement`)

`ECore` holds the scalar fields of one tree node: the generic fields, the
native-golang dialect fields that the engine writes (`nTypeRef`, `nName`,
`nError`), and the json dialect override block (`jPresent` is whether a
"json" `NativeType` entry exists for the node). -/

structure ECore where
  name : String := ""
  type : String := ""
  typeCategory : String := ""
  typeRef : String := ""
  nTypeRef : String := ""
  nName : String := ""
  error : String := ""
  nError : String := ""
  nullable : Bool := false
  jPresent : Bool := false
  jInclude : ThreeFlag := .flagUndefined
  jName : String := ""
  jType : String := ""
  jTypeRef : String := ""
  deriving DecidableEq, Repr

inductive Elem where
  | node (core : ECore) (children : List Elem)

@[simp] def Elem.core : Elem → ECore
  | .node c _ => c

@[simp] def Elem.children : Elem → List Elem
  | .node _ cs => cs

mutual

/-- Number of nodes of a tree (termination measure for registry recursion). -/
def esize : Elem → Nat
  | .node _ cs => 1 + lsize cs

def lsize : List Elem → Nat
  | [] => 0
  | c :: cs => esize c + lsize cs
end

@[simp] theorem esize_node (c : ECore) (cs : List Elem) :
    esize (.node c cs) = 1 + lsize cs := by
  rw [esize]

@[simp] theorem lsize_nil : lsize [] = 0 := by
  rw [lsize]

@[simp] theorem lsize_cons (c : Elem) (cs : List Elem) :
    lsize (c :: cs) = esize c + lsize cs := by
  rw [lsize]

theorem one_le_esize (e : Elem) : 1 ≤ esize e := by
  match e with
  | .node c cs => simp

theorem esize_eq_children (e : Elem) : esize e = 1 + lsize e.children := by
  match e with
  | .node c cs => simp [Elem.children]

/-- `TypeElement.ChildMap` lookup: the map is built by iterating the children
in order and overwriting on repeated names, so a lookup finds the last child
carrying a name. -/
@[simp] def childLookup : List Elem → String → Option Elem
  | [], _ => none
  | c :: cs, nm =>
    match childLookup cs nm with
    | some d => some d
    | none => if c.core.name = nm then some c else none

theorem mem_of_childLookup {cs : List Elem} {nm : String} {c : Elem}
    (h : childLookup cs nm = some c) : c ∈ cs := by
  induction cs with
  | nil => simp [childLookup] at h
  | cons d ds ih =>
    rw [childLookup] at h
    cases hd : childLookup ds nm with
    | some x =>
      rw [hd] at h
      cases h
      exact List.mem_cons_of_mem _ (ih hd)
    | none =>
      rw [hd] at h
      by_cases hn : d.core.name = nm
      · rw [if_pos hn] at h
        injection h with h2
        subst h2
        exact List.mem_cons_self _ _
      · rw [if_neg hn] at h
        exact Option.noConfusion h

theorem esize_le_lsize_of_mem {c : Elem} {cs : List Elem} (h : c ∈ cs) :
    esize c ≤ lsize cs := by
  induction cs with
  | nil => simp at h
  | cons d ds ih =>
    rcases List.mem_cons.mp h with h1 | h2
    · subst h1; simp
    · have := ih h2
      simp
      omega

/-! ## TypeRefs registry (`Reflector.addTypeRef` / `typeRefRecursion`) -/

mutual

/-- Port of `Reflector.addTypeRef`: register a pruned deep copy of an element
under its native TypeRef name, unless unnamed, already registered, or a
cyclical-reference error.  The copied root has its TypeRef cleared before
`typeRefRecursion` runs on it, so that call descends directly into the
children (`typeRefRecList`); the cleared-root step is inlined here. -/
def addTypeRef (e : Elem) (reg : List Elem) : List Elem :=
  if e.core.nTypeRef = "" then reg
  else if (childLookup reg e.core.nTypeRef).isSome then reg
  else if e.core.error = CyclicalReferenceErr then reg
  else
    let res := typeRefRecList e.children reg
    res.2 ++
      [Elem.node { e.core with name := e.core.nTypeRef, typeRef := "", nTypeRef := "" }
        res.1]
termination_by 8 * esize e + 4
decreasing_by
  try simp_wf
  rcases e with ⟨c, cs⟩
  simp only [esize_node, Elem.children]
  omega

/-- Port of `Reflector.typeRefRecursion`: nested TypeRef nodes are registered
themselves, then have their children pruned; their error is cleared. -/
def typeRefRecursion (e : Elem) (reg : List Elem) : Elem × List Elem :=
  match e with
  | .node c cs =>
    if c.nTypeRef ≠ "" then
      if c.error ≠ CyclicalReferenceErr then
        let reg2 := addTypeRef (.node c cs) reg
        (.node { c with error := "" } [], reg2)
      else
        (.node { c with error := "" } cs, reg)
    else
      let res := typeRefRecList cs reg
      (.node c res.1, res.2)
termination_by 8 * esize e + 5
decreasing_by
  all_goals try simp_wf
  all_goals omega

def typeRefRecList (cs : List Elem) (reg : List Elem) : List Elem × List Elem :=
  match cs with
  | [] => ([], reg)
  | c :: rest =>
    let r1 := typeRefRecursion c reg
    let r2 := typeRefRecList rest r1.2
    (r1.1 :: r2.1, r2.2)
termination_by 8 * lsize cs + 6
decreasing_by
  all_goals try simp_wf
  all_goals have h := one_le_esize c
  all_goals omega
end

/-! ## The derivation engine (`Reflector.reflectTypeImpl`)

Fuel-indexed: the fuel bounds the depth of nested `reflect` invocations, so
`none` means the depth bound was exhausted.  `anc` is the `AncestorTypeRef`
map: a name is "contained" when its count is positive, and `Add` ignores
empty names, so the map is embedded as the list of names added so far.
`pr` records whether the current element's parent is the tree root (the
element is reused, with `pr` unchanged, when pointer and interface layers
are elided).  `cur` is the scalar state of the current element
(`currentElem` before any children are attached); the finished subtree and
the updated TypeRefs registry are returned.

The kind-specific parts `reflectType{List,Struct,Interface,Pointer}Impl`
are ported as functions parameterized by the next-level `reflect` (`rf`)
and zero-value synthesizer (`zf`); `reflect` ties the knot by structural
recursion on the fuel. -/

@[simp] def ancAdd (anc : List String) (key : String) : List String :=
  if key = "" then anc else key :: anc

/-- A fresh element as created by `TypeElement.NewChild`. -/
@[simp] def freshCore (nm : String) : ECore := { name := nm }

/-- Increment the count of a key in an association list (`map[key]++`). -/
@[simp] def bumpCount : List (String × Nat) → String → List (String × Nat)
  | [], k => [(k, 1)]
  | (k0, c) :: rest, k =>
    if k0 = k then (k0, c + 1) :: rest else (k0, c) :: bumpCount rest k

@[simp] def lookupCount : List (String × Nat) → String → Nat
  | [], _ => 0
  | (k0, c) :: rest, k => if k0 = k then c else lookupCount rest k

/-- ASCII uppercase of one character (`strings.ToUpper` acts per byte). -/
@[simp] def upChar (c : Char) : Char :=
  if 'a' ≤ c ∧ c ≤ 'z' then Char.ofNat (c.toNat - 32) else c

/-- `util.Capitalize`: uppercase the first letter (the whole string when
shorter than two characters).  Character-based; the Go original slices the
first byte, which agrees on ASCII strings. -/
@[simp] def capitalize (s : String) : String :=
  if s.length < 2 then String.mk (s.data.map upChar)
  else
    String.mk
      (match s.data with
       | [] => []
       | c :: rest => upChar c :: rest)

/-- Sorting key for map keys: original name, capitalized export name, value. -/
structure MKey where
  nm : String
  ex : String
  val : GoValue

/-- The `sort.Slice` less function: by export name, then by original name. -/
@[simp] def mkeyLess (a b : MKey) : Bool :=
  if a.ex ≠ b.ex then decide (a.ex < b.ex) else decide (a.nm < b.nm)

@[simp] def insertBy (lt : α → α → Bool) (x : α) : List α → List α
  | [] => [x]
  | y :: ys => if lt x y then x :: y :: ys else y :: insertBy lt x ys

/-- Insertion sort with a strict less function; agrees with `sort.Slice` on
lists whose sorting keys are pairwise distinct (map keys are). -/
@[simp] def sortBy (lt : α → α → Bool) : List α → List α
  | [] => []
  | x :: xs => insertBy lt x (sortBy lt xs)

/-- `%q` of a string (quotes only; escaping does not arise in the model). -/
@[simp] def qs (s : String) : String := "\"" ++ s ++ "\""

/-- The suffix appended to the type slug of an unsupported value: the
concrete kind name, or `nil` for the untyped nil
(`v == reflect.ValueOf(nil)`). -/
@[simp] def invalidTypeSuffix (v : GoValue) : String :=
  match v with
  | .vNil => "nil"
  | _ => kindString v

/-- The type of one level of the recursive reflection. -/
def ReflectT : Type :=
  List String → Bool → ECore → GoValue → List Elem → Option (Elem × List Elem)

/-- The element loop of `reflectTypeListImpl`: every element is probed; on
the first disagreement of generic types the node errors with a kind:count
breakdown and stops (children probed so far are kept); otherwise only the
first child is kept. -/
def rListLoop (rf : ReflectT) (anc : List String) (cur : ECore) :
    List GoValue → List Elem → List (String × Nat) → List Elem →
    Option (Elem × List Elem)
  | [], acc, _, reg =>
    match acc with
    | [] => some (.node cur [], reg)
    | c0 :: _ => some (.node cur [c0], reg)
  | x :: rest, acc, kinds, reg =>
    match rf anc false (freshCore "") x reg with
    | none => none
    | some (child, reg2) =>
      let kinds2 := bumpCount kinds child.core.type
      if kinds2.length > 1 then
        let breakdown :=
          String.intercalate "," (kinds2.map fun kc => kc.1 ++ ":" ++ toString kc.2)
        some (.node { cur with
                        error := SliceMultiTypeErr
                        nError := SliceMultiTypeErr ++ ": " ++ breakdown }
          (acc ++ [child]), reg2)
      else
        rListLoop rf anc cur rest (acc ++ [child]) kinds2 reg2

/-- Port of `Reflector.reflectTypeListImpl` (Slice and Array). -/
def rList (rf : ReflectT) (zf : GoType → Option GoValue) (anc : List String)
    (cur : ECore) (isSlice : Bool) (isNil : Bool) (elemT : GoType)
    (xs : List GoValue) (reg : List Elem) : Option (Elem × List Elem) :=
  if cur.error = "" then
    if (if isSlice then isNil ∨ xs.length = 0 else xs.length = 0) then
      -- Empty or nil list: synthesize a zero-valued element for typing.
      match zf elemT with
      | none => none
      | some z =>
        match rf anc false (freshCore "") z reg with
        | none => none
        | some (child, reg2) => some (.node cur [child], reg2)
    else
      rListLoop rf anc cur xs [] [] reg
  else
    -- An element that already carries an error skips the kind-specific part
    -- but still reaches the trailing placeholder branch with the invalid
    -- zero `reflect.Value`.
    match rf anc false (freshCore "") .vNil reg with
    | none => none
    | some (child, reg2) => some (.node cur [child], reg2)

/-- The field loop of `reflectTypeStructImpl`: unexported fields are skipped;
each exported field becomes a child named after the field. -/
def rStructLoop (rf : ReflectT) (anc : List String) :
    List (String × Bool × GoValue) → List Elem →
    Option (List Elem × Nat × List Elem)
  | [], reg => some ([], 0, reg)
  | (fn, ex, fv) :: rest, reg =>
    if ex then
      match rf anc false (freshCore fn) fv reg with
      | none => none
      | some (child, reg2) =>
        match rStructLoop rf anc rest reg2 with
        | none => none
        | some (cs, cnt, reg3) => some (child :: cs, cnt + 1, reg3)
    else
      rStructLoop rf anc rest reg

/-- Struct part of `Reflector.reflectTypeStructImpl`. -/
def rStruct (rf : ReflectT) (anc : List String) (cur : ECore)
    (fields : List (String × Bool × GoValue)) (reg : List Elem) :
    Option (Elem × List Elem) :=
  if cur.error = "" then
    if fields.length = 0 then
      some (.node { cur with error := EmptyStructErr } [], reg)
    else
      match rStructLoop rf anc fields reg with
      | none => none
      | some (children, exported, reg2) =>
        if exported = 0 then
          some (.node { cur with error := NoExportedFieldsErr } children, reg2)
        else
          some (.node cur children, reg2)
  else
    some (.node cur [], reg)

/-- The key loop of the map case of `reflectTypeStructImpl`. -/
def rMapLoop (rf : ReflectT) (anc : List String) :
    List MKey → List (String × Nat) → List Elem →
    Option (List Elem × List Elem)
  | [], _, reg => some ([], reg)
  | k :: rest, uniq, reg =>
    let base : ECore :=
      { freshCore k.ex with nName := if k.ex ≠ k.nm then k.nm else "" }
    let marked : ECore :=
      if lookupCount uniq k.ex > 0 then
        { base with
            error := DuplicateMapKeyErr
            nError := "duplicate map key " ++ qs k.ex ++ " (" ++ qs k.nm ++ ")" }
      else base
    let uniq2 := bumpCount uniq k.ex
    match rf anc false marked k.val reg with
    | none => none
    | some (child, reg2) =>
      match rMapLoop rf anc rest uniq2 reg2 with
      | none => none
      | some (cs, reg3) => some (child :: cs, reg3)

/-- Map part of `Reflector.reflectTypeStructImpl`: string keys only, empty
maps rejected, keys capitalized for export and sorted by (export name,
original name), repeated export names marked `duplicate map key`. -/
def rMap (rf : ReflectT) (anc : List String) (cur : ECore) (keyIs : Bool)
    (keyStr : String) (entries : List (String × GoValue)) (reg : List Elem) :
    Option (Elem × List Elem) :=
  if cur.error = "" then
    if ¬keyIs then
      some (.node { cur with
                      error := MapKeyTypeErr
                      nError := "map key type must be string not " ++ qs keyStr }
        [], reg)
    else if entries.length = 0 then
      some (.node { cur with error := EmptyMapErr } [], reg)
    else
      let keys := entries.map fun e => MKey.mk e.1 (capitalize e.1) e.2
      let sorted := sortBy mkeyLess keys
      match rMapLoop rf anc sorted [] reg with
      | none => none
      | some (children, reg2) => some (.node cur children, reg2)
  else
    some (.node cur [], reg)

/-- Port of `Reflector.reflectTypeInterfaceImpl`: a nil interface errors, a
non-nil interface is elided (the same element is reused for the wrapped
value) and marks the element nullable. -/
def rIface (rf : ReflectT) (anc : List String) (pr : Bool) (cur : ECore)
    (inner : Option GoValue) (reg : List Elem) : Option (Elem × List Elem) :=
  match inner with
  | none => some (.node { cur with type := "invalid", error := NilInterfaceErr } [], reg)
  | some w => rf anc pr { cur with nullable := true } w reg

/-- Port of `Reflector.reflectTypePointerImpl`: nil pointers continue on a
synthesized zero value of the pointee type; the pointer layer is elided and
the element marked nullable.  Nothing happens when the element already
carries an error. -/
def rPtr (rf : ReflectT) (zf : GoType → Option GoValue) (anc : List String)
    (pr : Bool) (cur : ECore) (elemT : GoType) (target : Option GoValue)
    (reg : List Elem) : Option (Elem × List Elem) :=
  if cur.error = "" then
    match target with
    | some w => rf anc pr { cur with nullable := true } w reg
    | none =>
      match zf elemT with
      | none => none
      | some z => rf anc pr { cur with nullable := true } z reg
  else
    some (.node cur [], reg)

/-- Port of `Reflector.reflectTypeImpl`. -/
def reflect (env : Env) : Nat → ReflectT
  | 0 => fun _ _ _ _ _ => none
  | fuel + 1 => fun anc pr cur0 v reg =>
    -- Generic type and category of the value.
    let gt := genericTypeOf v
    let cur1 : ECore := { cur0 with type := gt.slug, typeCategory := gt.cat.slug }
    if gt.cat = TCat.catInvalid then
      -- Unsupported kinds stop immediately; the type slug, not the error,
      -- carries the concrete kind suffix (`:nil` for the untyped nil).
      some (.node { cur1 with
                      error := InvalidKindErr
                      type := cur1.type ++ ":" ++ invalidTypeSuffix v } [],
        reg)
    else if pr ∧ gt ≠ GType.gStruct ∧ gt.cat ≠ TCat.catReference then
      some (.node { cur1 with error := RootKindErr } [], reg)
    else
      -- If type.Name differs from type.Kind, the element is a TypeRef.
      let tn := typeName v
      let isRef := tn ≠ kindString v
      let cur2 : ECore := if isRef then { cur1 with typeRef := tn, nTypeRef := tn } else cur1
      if isRef ∧ anc.contains tn then
        some (.node { cur2 with error := CyclicalReferenceErr } [], reg)
      else
        let anc2 := if isRef then ancAdd anc tn else anc
        -- Category dispatch (the category is determined by the constructor).
        let res : Option (Elem × List Elem) :=
          match v with
          | .vBool | .vInt | .vFloat | .vString =>
            some (.node cur2 [], reg)
          | .vTime =>
            -- Known types are leaves and drop their TypeRef.
            some (.node { cur2 with typeRef := "", nTypeRef := "" } [], reg)
          | .vSlice _ elemT isNil xs =>
            rList (reflect env fuel) (zeroVal env fuel) anc2 cur2 true isNil elemT xs reg
          | .vArray _ elemT xs =>
            rList (reflect env fuel) (zeroVal env fuel) anc2 cur2 false false elemT xs reg
          | .vMap _ keyIs keyStr entries =>
            rMap (reflect env fuel) anc2 cur2 keyIs keyStr entries reg
          | .vStruct _ fields =>
            rStruct (reflect env fuel) anc2 cur2 fields reg
          | .vIface inner =>
            rIface (reflect env fuel) anc2 pr cur2 inner reg
          | .vPtr elemT target =>
            rPtr (reflect env fuel) (zeroVal env fuel) anc2 pr cur2 elemT target reg
          | .vChan | .vFunc | .vComplex | .vUnsafe | .vNil =>
            none  -- unreachable: the Invalid category already returned
        match res with
        | none => none
        | some (eOut, reg2) => some (eOut, addTypeRef eOut reg2)

/-- The core of a tree-root element (`types.NewRootElement`). -/
@[simp] def rootCore (nm : String) : ECore :=
  { name := nm, type := "root", typeCategory := "internal" }

/-- `types.Schema`: the Root tree and the TypeRefs registry tree. -/
structure Schema where
  root : Elem
  typeRefs : Elem

/-- Port of `Reflector.DeriveSchema`: reflect the value into a fresh child of
the Root element, with an empty ancestor set and an empty registry. -/
def deriveSchema (env : Env) (fuel : Nat) (x : GoValue) : Option Schema :=
  match reflect env fuel [] true (freshCore "") x [] with
  | none => none
  | some (out, reg) =>
    some { root := .node (rootCore "Root") [out], typeRefs := .node (rootCore "TypeRefs") reg }


/-! ## Dialect rendering framework (`renderer.RenderSchema` / `RenderType`)

A `RendererM` is the capability set of the `Renderer` interface as used by
the tree walk: the dereference flag and the `Pre`/`Post` hooks.  A hook
receives the chain of strict ancestors (nearest first; the Go renderers
reach them through the `Parent` back-references), the node, and the current
indent, and returns output lines and the updated indent. -/

structure RendererM where
  deref : Bool
  pre : List Elem → Elem → Nat → List String × Nat
  post : List Elem → Elem → Nat → List String × Nat

/-- `appendStrings`: append the non-empty strings. -/
@[simp] def filterNE (xs : List String) : List String := xs.filter (· ≠ "")

/-- `TypeElement.ChildKeys`: the sorted list of distinct child names. -/
@[simp] def childKeys (cs : List Elem) : List String :=
  sortBy (fun a b => decide (a < b)) ((cs.map (fun c => c.core.name)).dedup)

mutual

/-- Port of `renderer.RenderType`: emit `Pre`, recurse into the children in
alphabetical order of child name through the name-keyed child map (unless a
reference is being left unexpanded), restore the indent, emit `Post`, and
restore the indent again. -/
def renderType (r : RendererM) (revAnc : List Elem) : Elem → Nat → List String × Nat
  | .node core cs, ind0 =>
    let p := r.pre revAnc (.node core cs) ind0
    let out1 := filterNE p.1
    let out2 :=
      if ¬r.deref ∧ core.typeRef ≠ "" then out1
      else
        out1 ++ renderKeys r (Elem.node core cs :: revAnc) cs (childKeys cs) p.2
    let q := r.post revAnc (.node core cs) ind0
    (out2 ++ filterNE q.1, ind0)
termination_by e ind => (esize e, 0)

/-- The child loop of `RenderType`: the indent is reset to the captured child
indent before every child, and children are reached through the child map, so
each distinct name is rendered once. -/
def renderKeys (r : RendererM) (revAnc : List Elem) (cs : List Elem) :
    List String → Nat → List String
  | [], _ => []
  | k :: ks, childInd =>
    (match hc : childLookup cs k with
     | some c => (renderType r revAnc c childInd).1
     | none => []) ++ renderKeys r revAnc cs ks childInd
termination_by ks childInd => (lsize cs, ks.length + 1)
decreasing_by
  · simp_wf
    have h1 := esize_le_lsize_of_mem (mem_of_childLookup hc)
    rcases Nat.lt_or_ge (esize c) (lsize cs) with h2 | h2
    · exact Prod.Lex.left _ _ h2
    · have h3 : esize c = lsize cs := Nat.le_antisymm h1 h2
      rw [h3]
      exact Prod.Lex.right _ (Nat.succ_pos _)
  · simp_wf
    exact Prod.Lex.right _ (Nat.lt_succ_self _)
end

/-- Port of `renderer.RenderSchema`: when not dereferencing, first render the
`TypeRefs` tree (when it has entries), then the `Root` tree (when nonempty);
blank lines are dropped. -/
def renderSchema (r : RendererM) (s : Schema) (ind : Nat) : List String :=
  (if ¬r.deref ∧ s.typeRefs.children.length > 0 then
    filterNE (renderType r [] s.typeRefs ind).1
  else []) ++
  (if s.root.children.length > 0 then
    filterNE (renderType r [] s.root ind).1
  else [])

/-! ## Simple renderer (`SimpleRenderer`) -/

@[simp] def quoteStr (s : String) : String := "\"" ++ s ++ "\""

/-- `strings.Contains(s, ".")`, written over the character list so that it
evaluates by reduction. -/
@[simp] def containsDot (s : String) : Bool := s.data.contains '.'

/-- `TypeElement` path segment for the Simple dialect:
`[name:]type[:type_ref]`, wrapped in `!` when the node errored, quoted when
it contains a dot. -/
@[simp] def simpleSegment (deref : Bool) (c : ECore) : String :=
  let namePart := if c.name ≠ "" then c.name ++ ":" else ""
  let typePart := if c.typeCategory = "invalid" then c.type else pathDefaultOfType c.type
  let refPart0 :=
    if ¬deref then c.nTypeRef
    else if c.error = CyclicalReferenceErr then c.nTypeRef
    else ""
  let refPart := if refPart0 ≠ "" then ":" ++ refPart0 else ""
  let path := namePart ++ typePart ++ refPart
  let path := if c.error ≠ "" then "!" ++ path ++ "!" else path
  if containsDot path then quoteStr path else path

/-- Port of `SimpleRenderer.Path`, with the `Parent` chain passed explicitly
(nearest ancestor first); the topmost (parentless) element contributes its
name. -/
@[simp] def simplePath (deref : Bool) : List Elem → Elem → List String
  | [], t => [t.core.name]
  | p :: rest, t => simplePath deref rest p ++ [simpleSegment deref t.core]

/-- Port of `SimpleRenderer.Pre`: root elements emit nothing; other nodes
emit the dotted path, with ` ERROR:<kind>` appended when errored. -/
@[simp] def simplePreLines (deref : Bool) (revAnc : List Elem) (t : Elem) : List String :=
  if t.core.type = "root" then []
  else
    let out := String.intercalate "." (simplePath deref revAnc t)
    [if t.core.error ≠ "" then out ++ " ERROR:" ++ t.core.error else out]

@[simp] def simpleRenderer (deref : Bool) : RendererM :=
  { deref := deref
    pre := fun revAnc t ind => (simplePreLines deref revAnc t, ind)
    post := fun _ _ ind => ([], ind) }

/-! ## JSON renderer (`JSONRenderer`) -/

/-- The "json" `NativeType` view of a node.

Modelled from the spec: `TypeElement.GetNativeType` lives in the missing
`lib/types` package; per the spec, segment names and types prefer the json
override's name/type over the generic ones, the `include` tri-state comes
from the json override block when one exists (inclusion is the default), and
the type-ref falls back to the native type-ref. -/
structure JView where
  jvInclude : ThreeFlag
  jvName : String
  jvType : String
  jvTypeRef : String

@[simp] def getNativeTypeJson (c : ECore) : JView :=
  { jvInclude := if c.jPresent then c.jInclude else .flagTrue
    jvName := if c.jName ≠ "" then c.jName else c.name
    jvType := if c.jType ≠ "" then c.jType else c.type
    jvTypeRef := if c.jTypeRef ≠ "" then c.jTypeRef else c.nTypeRef }

/-- Port of `JSONRenderer.Path`: the path root token is `$` for `Root` and
`definitions` for `TypeRefs`; a node whose json override excludes it
contributes nothing; an errored segment is wrapped in `!` twice (the
wrapping block appears twice in the source). -/
@[simp] def jsonPath (deref : Bool) : List Elem → Elem → List String
  | revAnc, t =>
    if t.core.type = "root" then
      if t.core.name = "Root" then ["$"]
      else if t.core.name = "TypeRefs" then ["definitions"]
      else [t.core.name]
    else
      let jv := getNativeTypeJson t.core
      if jv.jvInclude = ThreeFlag.flagFalse then []
      else
        let namePart := if jv.jvName ≠ "" then jv.jvName ++ ":" else ""
        let typePart :=
          if t.core.typeCategory = "invalid" then t.core.type
          else pathDefaultOfType jv.jvType
        let refPart0 :=
          if ¬deref then jv.jvTypeRef
          else if t.core.error = CyclicalReferenceErr then jv.jvTypeRef
          else ""
        let refPart := if refPart0 ≠ "" then ":" ++ refPart0 else ""
        let path0 := namePart ++ typePart ++ refPart
        let path1 := if t.core.error ≠ "" then "!" ++ path0 ++ "!" else path0
        let path2 := if t.core.error ≠ "" then "!" ++ path1 ++ "!" else path1
        (match revAnc with
         | [] => []
         | p :: rest => jsonPath deref rest p) ++ [path2]

/-- Port of `JSONRenderer.Pre`: excluded nodes and root elements emit
nothing; other nodes emit the dot-joined path (segments containing a dot are
quoted), with ` ERROR:<kind>` appended when errored. -/
@[simp] def jsonPreLines (deref : Bool) (revAnc : List Elem) (t : Elem) : List String :=
  let jv := getNativeTypeJson t.core
  if jv.jvInclude = ThreeFlag.flagFalse then []
  else if jv.jvType = "root" then []
  else
    let path := jsonPath deref revAnc t
    let quoted := path.map fun p => if containsDot p then quoteStr p else p
    let out := String.intercalate "." quoted
    [if t.core.error ≠ "" then out ++ " ERROR:" ++ t.core.error else out]

@[simp] def jsonRenderer (deref : Bool) : RendererM :=
  { deref := deref
    pre := fun revAnc t ind => (jsonPreLines deref revAnc t, ind)
    post := fun _ _ ind => ([], ind) }


/-! ## Concrete values used by claim theorems -/

/-- A map with keys `a` and `A` that collide after capitalization. -/
def dupMapVal : GoValue := .vMap "" true "string" [("a", .vString), ("A", .vInt)]

/-- A struct with two named-struct fields inserted in reverse alphabetical
order, for the rendering-order claims. -/
def twoRefsVal : GoValue :=
  .vStruct "" [("ZField", true, .vStruct "ZType" [("Z", true, .vString)]),
               ("AField", true, .vStruct "AType" [("A", true, .vInt)])]

/-! ## Rendering framework lemmas -/

/-- A renderer whose hooks depend only on the cores along the ancestor chain
and the node's own core.  Both concrete dialect renderers are of this form:
their `Path` functions read nothing but scalar fields through the `Parent`
chain. -/
def coreBased (r : RendererM) : Prop :=
  ∀ (revAnc revAnc' : List Elem) (t t' : Elem) (ind : Nat),
    revAnc.map Elem.core = revAnc'.map Elem.core →
    t.core = t'.core →
    r.pre revAnc t ind = r.pre revAnc' t' ind ∧
    r.post revAnc t ind = r.post revAnc' t' ind

theorem childLookup_name {cs : List Elem} {nm : String} {c : Elem}
    (h : childLookup cs nm = some c) : c.core.name = nm := by
  induction cs with
  | nil => simp [childLookup] at h
  | cons d ds ih =>
    rw [childLookup] at h
    cases hd : childLookup ds nm with
    | some x =>
      rw [hd] at h
      cases h
      exact ih hd
    | none =>
      rw [hd] at h
      by_cases hn : d.core.name = nm
      · rw [if_pos hn] at h
        injection h with h2
        subst h2
        exact hn
      · rw [if_neg hn] at h
        exact Option.noConfusion h

theorem childLookup_isSome_iff {cs : List Elem} {nm : String} :
    (childLookup cs nm).isSome = true ↔ nm ∈ cs.map (fun c => c.core.name) := by
  induction cs with
  | nil => simp [childLookup]
  | cons d ds ih =>
    rw [childLookup, List.map_cons]
    cases hd : childLookup ds nm with
    | some x =>
      rw [hd] at ih
      constructor
      · intro _
        exact List.mem_cons.mpr (Or.inr (ih.mp rfl))
      · intro _
        rfl
    | none =>
      rw [hd] at ih
      by_cases hn : d.core.name = nm
      · constructor
        · intro _
          exact List.mem_cons.mpr (Or.inl hn.symm)
        · intro _
          rw [if_pos hn]
          rfl
      · rw [if_neg hn]
        constructor
        · intro h
          exact absurd h (by decide)
        · intro h
          rcases List.mem_cons.mp h with h1 | h2
          · exact absurd h1.symm hn
          · exact absurd (ih.mpr h2) (by decide)

theorem childLookup_eq_some_of_nodup {cs : List Elem} {c : Elem}
    (hn : (cs.map fun c => c.core.name).Nodup) (hmem : c ∈ cs) :
    childLookup cs c.core.name = some c := by
  induction cs with
  | nil => simp at hmem
  | cons d ds ih =>
    rw [List.map_cons, List.nodup_cons] at hn
    rw [childLookup]
    rcases List.mem_cons.mp hmem with rfl | hds
    · have hnone : childLookup ds c.core.name = none := by
        cases hcd : childLookup ds c.core.name with
        | none => rfl
        | some x =>
          have : c.core.name ∈ ds.map fun c => c.core.name :=
            childLookup_isSome_iff.mp (by rw [hcd]; rfl)
          exact absurd this hn.1
      rw [hnone, if_pos rfl]
    · rw [ih hn.2 hds]

theorem childLookup_perm {cs cs' : List Elem} (hp : cs.Perm cs')
    (hn : (cs.map fun c => c.core.name).Nodup) (nm : String) :
    childLookup cs nm = childLookup cs' nm := by
  have hn' : (cs'.map fun c => c.core.name).Nodup := ((hp.map _).nodup_iff).mp hn
  cases h : childLookup cs nm with
  | some c =>
    have h1 := mem_of_childLookup h
    have h2 := childLookup_name h
    rw [← h2]
    exact (childLookup_eq_some_of_nodup hn' (hp.mem_iff.mp h1)).symm
  | none =>
    cases h' : childLookup cs' nm with
    | none => rfl
    | some c =>
      have h1 := mem_of_childLookup h'
      have h2 := childLookup_name h'
      have : childLookup cs nm = some c := by
        rw [← h2]
        exact childLookup_eq_some_of_nodup hn (hp.mem_iff.mpr h1)
      rw [this] at h
      exact Option.noConfusion h

/-- A later occurrence of `b` makes an earlier insertion invisible to
`dedup`. -/
theorem dedup_middle {α : Type} [DecidableEq α] {b : α} {l2 : List α}
    (hb : b ∈ l2) : ∀ l1 : List α, (l1 ++ b :: l2).dedup = (l1 ++ l2).dedup := by
  intro l1
  induction l1 with
  | nil =>
    rw [List.nil_append, List.nil_append, List.dedup_cons_of_mem hb]
  | cons a l1 ih =>
    rw [List.cons_append, List.cons_append]
    by_cases ha : a ∈ l1 ++ l2
    · have ha' : a ∈ l1 ++ b :: l2 := by
        rcases List.mem_append.mp ha with h | h
        · exact List.mem_append.mpr (Or.inl h)
        · exact List.mem_append.mpr (Or.inr (List.mem_cons_of_mem _ h))
      rw [List.dedup_cons_of_mem ha', List.dedup_cons_of_mem ha, ih]
    · have ha' : a ∉ l1 ++ b :: l2 := by
        intro hmem
        rcases List.mem_append.mp hmem with h | h
        · exact ha (List.mem_append.mpr (Or.inl h))
        · rcases List.mem_cons.mp h with rfl | h2
          · exact ha (List.mem_append.mpr (Or.inr hb))
          · exact ha (List.mem_append.mpr (Or.inr h2))
      rw [List.dedup_cons_of_not_mem ha', List.dedup_cons_of_not_mem ha, ih]

theorem childLookup_middle {d : Elem} {cs2 : List Elem}
    (hd : d.core.name ∈ cs2.map fun c => c.core.name) :
    ∀ (cs1 : List Elem) (nm : String),
      childLookup (cs1 ++ d :: cs2) nm = childLookup (cs1 ++ cs2) nm := by
  intro cs1 nm
  induction cs1 with
  | nil =>
    rw [List.nil_append, List.nil_append, childLookup]
    cases hd2 : childLookup cs2 nm with
    | some x => rfl
    | none =>
      by_cases hn : d.core.name = nm
      · exfalso
        have : (childLookup cs2 nm).isSome = true :=
          childLookup_isSome_iff.mpr (by rw [← hn]; exact hd)
        rw [hd2] at this
        exact absurd this (by decide)
      · exact if_neg hn
  | cons a cs1 ih =>
    rw [List.cons_append, List.cons_append, childLookup, childLookup, ih]

theorem insertBy_perm {α : Type} (lt : α → α → Bool) (x : α) :
    ∀ l : List α, (insertBy lt x l).Perm (x :: l) := by
  intro l
  induction l with
  | nil => exact List.Perm.refl _
  | cons y ys ih =>
    rw [insertBy]
    by_cases h : lt x y = true
    · rw [if_pos h]
    · rw [if_neg h]
      exact (ih.cons y).trans (List.Perm.swap x y ys)

theorem sortBy_perm {α : Type} (lt : α → α → Bool) :
    ∀ l : List α, (sortBy lt l).Perm l := by
  intro l
  induction l with
  | nil => exact List.Perm.refl _
  | cons x xs ih =>
    rw [sortBy]
    exact (insertBy_perm lt x _).trans (ih.cons x)

theorem insertBy_sorted_strings {x : String} {l : List String}
    (h : l.Sorted (· ≤ ·)) :
    (insertBy (fun a b => decide (a < b)) x l).Sorted (· ≤ ·) := by
  induction l with
  | nil => simp [insertBy]
  | cons y ys ih =>
    rw [insertBy]
    rw [List.sorted_cons] at h
    by_cases hxy : x < y
    · rw [if_pos (by simpa using hxy)]
      rw [List.sorted_cons]
      refine ⟨?_, List.sorted_cons.mpr h⟩
      intro b hb
      rcases List.mem_cons.mp hb with rfl | hbys
      · exact le_of_lt hxy
      · exact le_trans (le_of_lt hxy) (h.1 b hbys)
    · rw [if_neg (by simpa using hxy)]
      rw [List.sorted_cons]
      refine ⟨?_, ih h.2⟩
      intro b hb
      have hb2 := (insertBy_perm (fun a b => decide (a < b)) x ys).mem_iff.mp hb
      rcases List.mem_cons.mp hb2 with rfl | hbys
      · exact le_of_not_lt hxy
      · exact h.1 b hbys

theorem sortBy_sorted_strings :
    ∀ l : List String, (sortBy (fun a b => decide (a < b)) l).Sorted (· ≤ ·) := by
  intro l
  induction l with
  | nil => simp [sortBy]
  | cons x xs ih =>
    rw [sortBy]
    exact insertBy_sorted_strings ih

theorem childKeys_sorted (cs : List Elem) : (childKeys cs).Sorted (· ≤ ·) :=
  sortBy_sorted_strings _

theorem mem_childKeys (cs : List Elem) (nm : String) :
    nm ∈ childKeys cs ↔ nm ∈ cs.map fun c => c.core.name := by
  rw [childKeys]
  exact ((sortBy_perm _ _).mem_iff).trans List.mem_dedup

theorem childKeys_eq_of_names_eq {cs cs' : List Elem}
    (h : (cs.map fun c => c.core.name).dedup = (cs'.map fun c => c.core.name).dedup) :
    childKeys cs = childKeys cs' := by
  rw [childKeys, childKeys, h]

theorem childKeys_eq_of_perm {cs cs' : List Elem}
    (h : (cs.map fun c => c.core.name).Perm (cs'.map fun c => c.core.name)) :
    childKeys cs = childKeys cs' := by
  have hp : (childKeys cs).Perm (childKeys cs') :=
    ((sortBy_perm _ _).trans (h.dedup)).trans (sortBy_perm _ _).symm
  exact List.eq_of_perm_of_sorted hp (childKeys_sorted cs) (childKeys_sorted cs')

/-- `RenderType` output is invariant under replacing the ancestor chain by
one with the same cores, for a core-based renderer. -/
theorem renderType_anc (r : RendererM) (hr : coreBased r) :
    ∀ (n : Nat) (e : Elem), esize e ≤ n →
      ∀ (revAnc revAnc' : List Elem) (ind : Nat),
        revAnc.map Elem.core = revAnc'.map Elem.core →
        renderType r revAnc e ind = renderType r revAnc' e ind := by
  intro n
  induction n with
  | zero =>
    intro e he
    have := one_le_esize e
    omega
  | succ n ih =>
    intro e he revAnc revAnc' ind hcore
    rcases e with ⟨core, cs⟩
    have hpre := (hr revAnc revAnc' (.node core cs) (.node core cs) ind hcore rfl).1
    have hpost := (hr revAnc revAnc' (.node core cs) (.node core cs) ind hcore rfl).2
    have hkeys : ∀ (ks : List String) (childInd : Nat),
        renderKeys r (Elem.node core cs :: revAnc) cs ks childInd =
          renderKeys r (Elem.node core cs :: revAnc') cs ks childInd := by
      intro ks
      induction ks with
      | nil =>
        intro childInd
        rw [renderKeys, renderKeys]
      | cons k ks ihk =>
        intro childInd
        rw [renderKeys, renderKeys, ihk]
        congr 1
        cases hc : childLookup cs k with
        | none => simp
        | some c =>
          simp only
          have hsz : esize c ≤ n := by
            have h1 := esize_le_lsize_of_mem (mem_of_childLookup hc)
            have h2 : esize (Elem.node core cs) = 1 + lsize cs := by simp
            omega
          rw [ih c hsz (Elem.node core cs :: revAnc) (Elem.node core cs :: revAnc')
            childInd (by simp [hcore])]
    rw [renderType, renderType, hpre, hpost, hkeys]

/-- `RenderType` reaches children only through the name-keyed child map and
the sorted key list: two child lists with the same keys and the same lookup
results render identically under a core-based renderer. -/
theorem renderType_childmap (r : RendererM) (hr : coreBased r) (core : ECore)
    (cs cs' : List Elem)
    (hkeys : childKeys cs = childKeys cs')
    (hlook : ∀ nm, childLookup cs nm = childLookup cs' nm)
    (revAnc : List Elem) (ind : Nat) :
    renderType r revAnc (.node core cs) ind =
      renderType r revAnc (.node core cs') ind := by
  have hpre := (hr revAnc revAnc (.node core cs) (.node core cs') ind rfl rfl).1
  have hpost := (hr revAnc revAnc (.node core cs) (.node core cs') ind rfl rfl).2
  have hloop : ∀ (ks : List String) (childInd : Nat),
      renderKeys r (Elem.node core cs :: revAnc) cs ks childInd =
        renderKeys r (Elem.node core cs' :: revAnc) cs' ks childInd := by
    intro ks
    induction ks with
    | nil =>
      intro childInd
      rw [renderKeys, renderKeys]
    | cons k ks ihk =>
      intro childInd
      rw [renderKeys, renderKeys, ihk, hlook k]
      congr 1
      cases hc : childLookup cs' k with
      | none => simp
      | some c =>
        simp only
        exact congrArg Prod.fst
          (renderType_anc r hr (esize c) c le_rfl _ _ childInd (by simp))
  rw [renderType, renderType, hpre, hpost, hkeys, hloop]

/-- `SimpleRenderer.Path` reads only the cores along the parent chain. -/
theorem simplePath_congr (deref : Bool) :
    ∀ (revAnc revAnc' : List Elem) (t t' : Elem),
      revAnc.map Elem.core = revAnc'.map Elem.core → t.core = t'.core →
      simplePath deref revAnc t = simplePath deref revAnc' t' := by
  intro revAnc
  induction revAnc with
  | nil =>
    intro revAnc' t t' h hc
    cases revAnc' with
    | nil => rw [simplePath, simplePath, hc]
    | cons p' rest' => simp at h
  | cons p rest ih =>
    intro revAnc' t t' h hc
    cases revAnc' with
    | nil => simp at h
    | cons p' rest' =>
      simp only [List.map_cons, List.cons.injEq] at h
      rw [simplePath, simplePath, ih rest' p p' h.2 h.1, hc]

theorem coreBased_simpleRenderer (deref : Bool) :
    coreBased (simpleRenderer deref) := by
  intro revAnc revAnc' t t' ind h hc
  constructor
  · have hpath := simplePath_congr deref revAnc revAnc' t t' h hc
    simp only [simpleRenderer, simplePreLines, hc, hpath]
  · rfl

/-! ## Claim theorems -/

/-- C4: for every top-level value (a node whose parent is the tree root) with
a supported kind, if its generic type is not struct and its type category is
not Reference, the node is assigned the error `root type must be a struct`
and produces no children; a bare scalar root yields exactly one output line
in the Simple dialect. -/
theorem c4_root_type_must_be_struct :
    (∀ (env : Env) (fuel : Nat) (anc : List String) (cur : ECore) (v : GoValue)
       (reg : List Elem),
      genericTypeOf v ≠ GType.gStruct →
      (genericTypeOf v).cat ≠ TCat.catReference →
      (genericTypeOf v).cat ≠ TCat.catInvalid →
      reflect env (fuel + 1) anc true cur v reg =
        some (.node { cur with
                        type := (genericTypeOf v).slug
                        typeCategory := (genericTypeOf v).cat.slug
                        error := RootKindErr } [], reg)) ∧
    (deriveSchema [] 2 .vString).map
        (fun sc => renderSchema (simpleRenderer false) sc 0) =
      some ["Root.!string! ERROR:root type must be a struct"] := by
  constructor
  · intro env fuel anc cur v reg h1 h2 h3
    show (fun anc pr cur0 v reg => _) anc true cur v reg = _
    simp only [reflect]
    rw [if_neg h3]
    rw [if_pos ⟨trivial, h1, h2⟩]
  · simp +decide [deriveSchema, reflect, renderSchema, renderType, renderKeys]

/-- Witness for C4 at a concrete input: a bare float under the root errors. -/
theorem c4_root_type_must_be_struct_witness :
    reflect [] 1 [] true (freshCore "") .vFloat [] =
      some (.node { freshCore "" with
                      type := "float"
                      typeCategory := "basic"
                      error := RootKindErr } [], []) :=
  c4_root_type_must_be_struct.1 [] 0 [] (freshCore "") .vFloat []
    (by decide) (by decide) (by decide)

/-- C8 counterexample: at a channel value the recorded error is exactly
`kind not supported`; it is not suffixed with the kind name as the claim
states (the suffix goes on the type slug instead). -/
theorem c8_error_not_suffixed_counterexample :
    (reflect [] 1 [] false (freshCore "") .vChan []).map
        (fun p => (p.1.core.error, p.1.core.type)) =
      some (InvalidKindErr, "invalid:chan") ∧
    InvalidKindErr ≠ InvalidKindErr ++ ":" ++ kindString .vChan := by
  constructor
  · simp +decide [reflect]
  · decide

/-- C8 (amended): a value whose kind has no generic-type mapping is
classified Invalid, derivation stops with no children, the error is exactly
`kind not supported`, and the node's type slug is suffixed with the concrete
kind name (or the literal `nil` for the untyped nil). -/
theorem c8_invalid_kind_amended (env : Env) (fuel : Nat) (anc : List String)
    (pr : Bool) (cur : ECore) (v : GoValue) (reg : List Elem)
    (h : (genericTypeOf v).cat = TCat.catInvalid) :
    reflect env (fuel + 1) anc pr cur v reg =
      some (.node { cur with
                      type := "invalid" ++ ":" ++ invalidTypeSuffix v
                      typeCategory := "invalid"
                      error := InvalidKindErr } [], reg) := by
  have hg : genericTypeOf v = GType.gInvalid := by
    cases hv : genericTypeOf v <;>
      first
        | rfl
        | (rw [hv] at h; exact absurd h (by decide))
  simp only [reflect]
  rw [hg]
  simp

/-- Witness for C8 at the untyped nil: classified `invalid:nil`. -/
theorem c8_invalid_kind_amended_witness :
    reflect [] 1 [] false (freshCore "") .vNil [] =
      some (.node { freshCore "" with
                      type := "invalid" ++ ":" ++ invalidTypeSuffix .vNil
                      typeCategory := "invalid"
                      error := InvalidKindErr } [], []) :=
  c8_invalid_kind_amended [] 0 [] false (freshCore "") .vNil [] (by decide)

/-- C9: code bug — in the JSON dialect, an errored node's path segment is
wrapped in TWO pairs of `!` markers (the wrapping block appears twice in
`JSONRenderer.Path`), not in one pair as in the Simple dialect: a bare
string root renders as `$.!!string!! ERROR:…` under JSON but as
`Root.!string! ERROR:…` under Simple, and in general every errored,
included, non-root node ends its path in a doubly wrapped segment. -/
theorem c9_json_error_segment_double_wrapped :
    ((deriveSchema [] 2 .vString).map
        (fun sc => renderSchema (jsonRenderer false) sc 0) =
      some ["$.!!string!! ERROR:root type must be a struct"]) ∧
    ((deriveSchema [] 2 .vString).map
        (fun sc => renderSchema (simpleRenderer false) sc 0) =
      some ["Root.!string! ERROR:root type must be a struct"]) ∧
    (∀ (deref : Bool) (revAnc : List Elem) (t : Elem),
      t.core.type ≠ "root" →
      t.core.error ≠ "" →
      (getNativeTypeJson t.core).jvInclude ≠ ThreeFlag.flagFalse →
      ∃ s : String,
        (jsonPath deref revAnc t).getLast? = some ("!" ++ ("!" ++ s ++ "!") ++ "!")) := by
  refine ⟨?_, ?_, ?_⟩
  · simp +decide [deriveSchema, reflect, renderSchema, renderType, renderKeys]
  · simp +decide [deriveSchema, reflect, renderSchema, renderType, renderKeys]
  · intro deref revAnc t h1 h2 h3
    rcases t with ⟨c, cs⟩
    simp only [Elem.core] at h1 h2 h3
    rw [jsonPath.eq_def]
    simp only [Elem.core, h1, if_neg h3, if_pos h2, ite_false, List.getLast?_concat]
    exact ⟨_, rfl⟩

/-- Witness for C9: the bare-string error node's JSON path segment is doubly
wrapped. -/
theorem c9_json_error_segment_double_wrapped_witness :
    ∃ s : String,
      (jsonPath false []
          (.node { name := "", type := "string", typeCategory := "basic",
                   error := "root type must be a struct" } [])).getLast? =
        some ("!" ++ ("!" ++ s ++ "!") ++ "!") :=
  c9_json_error_segment_double_wrapped.2.2 false [] _ (by decide) (by decide) (by decide)

end B9
